import Mathlib

/-!
Verification of `AIF_deterministic.py` (deterministic arterial-input-function
selection for DCE-MRI).  The Python source is shallowly embedded: 4-D volumes
become lists of flattened voxel lists (or total functions on voxel indices),
machine floats become exact rationals (`ℚ`, with `x / 0 = 0` as the explicit
model of the degenerate divisions numpy would turn into `nan`/`inf`), and the
relevant numpy / scipy / skimage primitives (`argmax`, `percentile`,
`histogram`, `binary_opening`, `regionprops` enumeration) are modelled
faithfully in exact arithmetic.
-/

namespace AIF

/-! ### Python string handling

`option.upper().strip()` from `relative_concentration_map` (lines 23/25). -/

/-- Model of Python `str.upper` (ASCII, as used for the mode strings here). -/
def pyUpper (s : String) : String := String.mk (s.data.map Char.toUpper)

/-- Model of Python `str.strip`: drop whitespace from both ends. -/
def pyStrip (s : String) : String :=
  String.mk (((s.data.dropWhile Char.isWhitespace).reverse.dropWhile
    Char.isWhitespace).reverse)

/-! ### numpy primitives -/

/-- Length of the Python slice `xs[:b]` of a list of length `T`
(negative `b` counts from the end, clipping at `0`). -/
def pySliceLen (b : Int) (T : Nat) : Nat :=
  if 0 ≤ b then min b.toNat T else T - (-b).toNat

/-- Auxiliary loop for `np.argmax`: `i` is the index of the next element,
`bi`/`bv` the index and value of the best element seen so far. -/
def argmaxFrom {α : Type} [LinearOrder α] (i bi : Nat) (bv : α) : List α → Nat
  | [] => bi
  | x :: xs => if bv < x then argmaxFrom (i + 1) i x xs else argmaxFrom (i + 1) bi bv xs

/-- `np.argmax` of a list (index of the first maximum, as in numpy; `0` on the
empty list, matching the use sites where numpy broadcasts an empty result). -/
def npArgmax {α : Type} [LinearOrder α] : List α → Nat
  | [] => 0
  | x :: xs => argmaxFrom 1 0 x xs

/-! ### 4.1 Concentration Mapper — `relative_concentration_map`, lines 18–28 -/

/-- The final clamp `relim[relim < 0] = 0` (line 27), applied entrywise. -/
def clamp0 (x : ℚ) : ℚ := if x < 0 then 0 else x

/-- `np.mean(im[:n], axis=0)` at voxel `v`: the temporal mean of the first `n`
frames (`0` for `n = 0`, where numpy would emit `nan`; exact-rational model). -/
def baseline_mean (im : List (List ℚ)) (n : Nat) (v : Nat) : ℚ :=
  (((im.take n).map (fun frame => frame.getD v 0)).sum) / (n : ℚ)

/-- Lines 18–28 of the source: per-frame `k*(I - I0)` (mode `ABS`) or
`k*(I - I0)/I0` (mode `REL`), any other mode leaving the zero initialisation of
`relim` in place, followed by the final clamp `relim[relim < 0] = 0`. -/
def relative_concentration_map (im : List (List ℚ)) (baseline : Int) (k : ℚ)
    (option : String) : List (List ℚ) :=
  im.map (fun frame =>
    (List.range (im.getD 0 []).length).map (fun v =>
      clamp0 (
        if pyStrip (pyUpper option) = "ABS" then
          k * (frame.getD v 0 - baseline_mean im (pySliceLen baseline im.length) v)
        else if pyStrip (pyUpper option) = "REL" then
          k * (frame.getD v 0 - baseline_mean im (pySliceLen baseline im.length) v) /
            baseline_mean im (pySliceLen baseline im.length) v
        else 0)))

/-- Modelled from the spec: "Fails if `b ≥ T` or `b ≤ 0`" (§4.1) — a checked
variant of the Concentration Mapper that rejects an out-of-domain baseline
length before computing, which the source itself never does. -/
def relative_concentration_map_checked (im : List (List ℚ)) (baseline : Int)
    (k : ℚ) (option : String) : Except Unit (List (List ℚ)) :=
  if (im.length : Int) ≤ baseline ∨ baseline ≤ 0 then Except.error ()
  else Except.ok (relative_concentration_map im baseline k option)

/-! ### Theorems for the Concentration Mapper -/

lemma clamp0_nonneg (x : ℚ) : 0 ≤ clamp0 x := by
  unfold clamp0
  split
  · exact le_refl 0
  · next h => exact le_of_not_lt h

lemma clamp0_zero : clamp0 0 = 0 := by
  simp [clamp0]

/-- C5: every value produced by the Concentration Mapper is non-negative — the
final clamp `relim[relim < 0] = 0` makes every entry of the returned volume
`≥ 0`, for every input volume, baseline length, scale factor and mode. -/
theorem concentration_map_nonneg (im : List (List ℚ)) (baseline : Int) (k : ℚ)
    (option : String) :
    ∀ row ∈ relative_concentration_map im baseline k option, ∀ x ∈ row, 0 ≤ x := by
  intro row hrow x hx
  simp only [relative_concentration_map, List.mem_map] at hrow
  obtain ⟨frame, -, rfl⟩ := hrow
  simp only [List.mem_map] at hx
  obtain ⟨v, -, rfl⟩ := hx
  exact clamp0_nonneg _

lemma concentration_eval_simple :
    relative_concentration_map [[0], [1]] 1 1 "ABS" = [[0], [1]] := by
  have hmode : pyStrip (pyUpper "ABS") = "ABS" := by decide
  simp [relative_concentration_map, hmode, baseline_mean, pySliceLen, clamp0]
  norm_num [List.range_succ]

/-- C5 witness: the non-negativity theorem applied to a concrete volume. -/
theorem concentration_map_nonneg_witness :
    [(1 : ℚ)] ∈ relative_concentration_map [[0], [1]] 1 1 "ABS" ∧
      (1 : ℚ) ∈ [(1 : ℚ)] ∧ (0 : ℚ) ≤ 1 := by
  refine ⟨?_, by simp, ?_⟩
  · rw [concentration_eval_simple]
    simp
  · exact concentration_map_nonneg [[0], [1]] 1 1 "ABS" [1]
      (by rw [concentration_eval_simple]; simp) 1 (by simp)

/-- C7 counterexample: the Concentration Mapper does not fail fast on an
out-of-range baseline.  At `b = T = 2` (and likewise at `b = 0`) it returns an
ordinary clamped volume, while the specified behaviour is an error. -/
theorem concentration_map_no_baseline_check :
    relative_concentration_map_checked [[2], [4]] 2 1 "ABS" = Except.error () ∧
      relative_concentration_map [[2], [4]] 2 1 "ABS" = [[0], [1]] ∧
      relative_concentration_map [[2], [4]] 0 1 "ABS" = [[2], [4]] := by
  have hmode : pyStrip (pyUpper "ABS") = "ABS" := by decide
  refine ⟨by simp [relative_concentration_map_checked], ?_, ?_⟩
  · simp [relative_concentration_map, hmode, baseline_mean, pySliceLen, clamp0]
    norm_num [List.range_succ]
  · simp [relative_concentration_map, hmode, baseline_mean, pySliceLen, clamp0]
    norm_num [List.range_succ]

/-- C7 amended: the Concentration Mapper performs no validation of the baseline
length.  For `b ≥ T` Python's slice `im[:b]` clips to the whole series, so the
mapper proceeds exactly as with `b = T`; no error is reported. -/
theorem concentration_map_baseline_clips (im : List (List ℚ)) (baseline : Int)
    (k : ℚ) (option : String) (h : (im.length : Int) ≤ baseline) :
    relative_concentration_map im baseline k option =
      relative_concentration_map im (im.length : Int) k option := by
  have h0 : (0 : Int) ≤ baseline := le_trans (Int.ofNat_nonneg _) h
  have hs : pySliceLen baseline im.length = pySliceLen (im.length : Int) im.length := by
    simp only [pySliceLen, if_pos h0, if_pos (Int.ofNat_nonneg im.length)]
    have hl : im.length ≤ baseline.toNat := by
      have := Int.toNat_le_toNat h
      simpa using this
    simp [Int.toNat_ofNat, min_eq_right hl]
  simp only [relative_concentration_map, hs]

/-- C7 witness: baseline clipping at a concrete volume with `b = 5 > T = 2`. -/
theorem concentration_map_baseline_clips_witness :
    relative_concentration_map [[2], [4]] 5 1 "ABS" =
      relative_concentration_map [[2], [4]] (([[2], [4]] : List (List ℚ)).length : Int)
        1 "ABS" :=
  concentration_map_baseline_clips [[2], [4]] 5 1 "ABS" (by decide)

/-- C10: for any mode string whose stripped upper-casing is neither `"ABS"` nor
`"REL"`, the Concentration Mapper silently returns the all-zero volume of the
input's shape (the zero initialisation of `relim` is returned unchanged). -/
theorem concentration_map_unknown_mode_zero (im : List (List ℚ)) (baseline : Int)
    (k : ℚ) (option : String)
    (h1 : pyStrip (pyUpper option) ≠ "ABS") (h2 : pyStrip (pyUpper option) ≠ "REL") :
    relative_concentration_map im baseline k option =
      im.map (fun _ => List.replicate (im.getD 0 []).length 0) := by
  simp only [relative_concentration_map, if_neg h1, if_neg h2, clamp0_zero]
  refine List.map_congr_left (fun frame _ => ?_)
  rw [List.map_const', List.length_range]

/-- C10 witness: the unknown mode `" foo "` yields the all-zero volume. -/
theorem concentration_map_unknown_mode_zero_witness :
    relative_concentration_map [[1], [3]] 1 1 " foo " =
      ([[1], [3]] : List (List ℚ)).map
        (fun _ => List.replicate (([[1], [3]] : List (List ℚ)).getD 0 []).length (0 : ℚ)) :=
  concentration_map_unknown_mode_zero [[1], [3]] 1 1 " foo " (by decide) (by decide)

end AIF

namespace AIF

/-! ### 4.2 Candidate Selector step 2 — `select_binary_opening`, lines 42–44

A 3-D boolean array with scipy's `border_value=0` is modelled as an occupancy
function on `ℤ³` that is false outside the array bounds. -/

/-- scipy's default structuring element `generate_binary_structure(3, 1)`:
the centre plus the six face neighbours (6-connectivity cross). -/
def cross_offsets : List (Int × Int × Int) :=
  [(0, 0, 0), (1, 0, 0), (-1, 0, 0), (0, 1, 0), (0, -1, 0), (0, 0, 1), (0, 0, -1)]

/-- The full 3×3×3 structuring element (26-connectivity cube), named in the
spec as the element the binary opening allegedly uses. -/
def cube_offsets : List (Int × Int × Int) :=
  ([-1, 0, 1] : List Int).flatMap (fun dz =>
    ([-1, 0, 1] : List Int).flatMap (fun dy =>
      ([-1, 0, 1] : List Int).map (fun dx => (dz, dy, dx))))

/-- `scipy.ndimage.binary_erosion` with structuring element `st` (symmetric
elements only are used here, so the origin convention is immaterial). -/
def binary_erosion (v : Int × Int × Int → Bool) (st : List (Int × Int × Int)) :
    Int × Int × Int → Bool :=
  fun p => st.all (fun o => v (p.1 + o.1, p.2.1 + o.2.1, p.2.2 + o.2.2))

/-- `scipy.ndimage.binary_dilation` with structuring element `st` (for the
symmetric `st` used here, reflection of the element is the identity). -/
def binary_dilation (v : Int × Int × Int → Bool) (st : List (Int × Int × Int)) :
    Int × Int × Int → Bool :=
  fun p => st.any (fun o => v (p.1 + o.1, p.2.1 + o.2.1, p.2.2 + o.2.2))

/-- `scipy.ndimage.binary_opening`: erosion followed by dilation. -/
def binary_opening (v : Int × Int × Int → Bool) (st : List (Int × Int × Int)) :
    Int × Int × Int → Bool :=
  binary_dilation (binary_erosion v st) st

/-- Lines 42–44: `scipy.ndimage.binary_opening(voxels)` with no `structure`
argument, hence scipy's default 6-connectivity cross. -/
def select_binary_opening (v : Int × Int × Int → Bool) : Int × Int × Int → Bool :=
  binary_opening v cross_offsets

/-- A solid 3×3×3 block of true voxels at the origin. -/
def cube3 : Int × Int × Int → Bool :=
  fun p => decide (0 ≤ p.1 ∧ p.1 ≤ 2 ∧ 0 ≤ p.2.1 ∧ p.2.1 ≤ 2 ∧ 0 ≤ p.2.2 ∧ p.2.2 ≤ 2)

/-- C8 counterexample: on the solid 3×3×3 block, the source's binary opening
(scipy default cross element) erases the corner voxel, while an opening with
the full 3×3×3 element keeps it — so the opening does not use full 3×3×3
connectivity. -/
theorem binary_opening_not_full_connectivity :
    select_binary_opening cube3 (0, 0, 0) = false ∧
      binary_opening cube3 cube_offsets (0, 0, 0) = true := by
  constructor
  · decide
  · decide

/-- C8 amended: the Candidate Selector's binary opening is erosion followed by
dilation with scipy's default structuring element, the 6-connectivity cross
(centre plus face neighbours), not the full 3×3×3 cube. -/
theorem select_binary_opening_characterization (v : Int × Int × Int → Bool)
    (p : Int × Int × Int) :
    select_binary_opening v p = true ↔
      ∃ o ∈ cross_offsets, ∀ q ∈ cross_offsets,
        v (p.1 + o.1 + q.1, p.2.1 + o.2.1 + q.2.1, p.2.2 + o.2.2 + q.2.2) = true := by
  simp [select_binary_opening, binary_opening, binary_dilation, binary_erosion,
    List.any_eq_true, List.all_eq_true]

/-! ### 4.6 Mask Refiner — `find_deterministic_aif`, lines 307–354

`estimate_parkers_model` wraps `scipy.optimize.least_squares`, external
floating-point numerics; its outcome is therefore a parameter of the stage
functions: `Except.ok cost` for a successful fit with residual cost `cost`,
`Except.error ()` for a raised `ValueError`. -/

/-- Lines 315–323: the erosion/dilation refit.  `dfmin` is `df['cost'].min()`
(the best candidate fit cost), `mask` the current best mask (line 308),
`multi_dilated` the eroded-then-dilated mask.  The `try`/`except ValueError`
block absorbs a fit failure, keeping mask and cost; a successful fit replaces
them only when its cost is strictly lower.  Returns the mask and
`cost_after_dilation` carried into Step 6. -/
def dilation_refinement {α : Type} (dfmin : ℚ) (fit : Except Unit ℚ)
    (mask multi_dilated : α) : α × ℚ :=
  match fit with
  | Except.ok cost => if cost < dfmin then (multi_dilated, cost) else (mask, dfmin)
  | Except.error _ => (mask, dfmin)

/-- Lines 347–354: the region-growing refit against `cost_after_dilation`,
with `m` the flood-filled mask.  There is no `try`/`except` here, so a fit
failure escapes `find_deterministic_aif`; the stage is `Except`-valued. -/
def region_growing_refinement {α : Type} (cost_after_dilation : ℚ)
    (fit : Except Unit ℚ) (mask m : α) : Except Unit (α × ℚ) :=
  match fit with
  | Except.ok cost =>
      Except.ok (if cost < cost_after_dilation then (m, cost)
                 else (mask, cost_after_dilation))
  | Except.error e => Except.error e

/-- C1: the best-cost sequence threaded through the refinement stages is
non-increasing — `cost_after_dilation ≤ df['cost'].min()` and
`cost_after_region_growing ≤ cost_after_dilation` — and in each stage the
refined mask replaces the current best mask exactly when the refit cost is
strictly lower than the running best cost. -/
theorem refinement_cost_monotone :
    (∀ (α : Type) (dfmin : ℚ) (fit : Except Unit ℚ) (mask d : α),
        (dilation_refinement dfmin fit mask d).2 ≤ dfmin) ∧
      (∀ (α : Type) (cad : ℚ) (fit : Except Unit ℚ) (mask m : α) (r : α × ℚ),
        region_growing_refinement cad fit mask m = Except.ok r → r.2 ≤ cad) ∧
      (∀ (α : Type) (dfmin c : ℚ) (mask d : α),
        dilation_refinement dfmin (Except.ok c) mask d =
          if c < dfmin then (d, c) else (mask, dfmin)) ∧
      (∀ (α : Type) (cad c : ℚ) (mask m : α),
        region_growing_refinement cad (Except.ok c) mask m =
          Except.ok (if c < cad then (m, c) else (mask, cad))) := by
  refine ⟨?_, ?_, ?_, ?_⟩
  · intro α dfmin fit mask d
    cases fit with
    | ok c =>
        by_cases h : c < dfmin
        · simp [dilation_refinement, h, le_of_lt h]
        · simp [dilation_refinement, h]
    | error e => simp [dilation_refinement]
  · intro α cad fit mask m r hr
    cases fit with
    | ok c =>
        simp only [region_growing_refinement, Except.ok.injEq] at hr
        subst hr
        by_cases h : c < cad
        · simp [h, le_of_lt h]
        · simp [h]
    | error e => simp [region_growing_refinement] at hr
  · intro α dfmin c mask d
    rfl
  · intro α cad c mask m
    rfl

/-- C1 witness: both monotonicity conjuncts applied at concrete costs. -/
theorem refinement_cost_monotone_witness :
    (dilation_refinement (5 : ℚ) (Except.ok 2) (0 : Nat) 1).2 ≤ 5 ∧
      ((1 : Nat), (2 : ℚ)).2 ≤ 5 := by
  constructor
  · exact refinement_cost_monotone.1 Nat 5 (Except.ok 2) 0 1
  · refine refinement_cost_monotone.2.1 Nat 5 (Except.ok 2) 0 1 (1, 2) ?_
    have h : (2 : ℚ) < 5 := by norm_num
    simp [region_growing_refinement, h]

/-- C6 counterexample: a fit failure during the region-growing refinement is
not absorbed — the error propagates out of the stage (no handler exists at
lines 347–354). -/
theorem region_growing_fit_failure_propagates :
    region_growing_refinement (5 : ℚ) (Except.error ()) (0 : Nat) 1 =
      Except.error () := rfl

/-- C6 amended: a fit failure during the erosion/dilation refinement is
absorbed locally (previous mask and running best cost retained), but a fit
failure during the region-growing refinement has no handler and propagates to
the caller. -/
theorem fit_failure_handling :
    (∀ (α : Type) (dfmin : ℚ) (mask d : α),
        dilation_refinement dfmin (Except.error ()) mask d = (mask, dfmin)) ∧
      (∀ (α : Type) (cad : ℚ) (mask m : α),
        region_growing_refinement cad (Except.error ()) mask m = Except.error ()) :=
  ⟨fun _ _ _ _ => rfl, fun _ _ _ _ => rfl⟩

/-! ### 4.4 Region Extractor — `find_promising_objects`, lines 73–83 -/

/-- One entry of `skimage.measure.regionprops(label_im)`.  The regionprops
list contains only the non-background components, `regions[num]` carrying
label `num + 1`; `area` is the component's voxel count, and the convex mask
and bounding box are carried opaquely. -/
structure RegionProp (μ β : Type) where
  area : Nat
  convex_image : μ
  bbox : β

/-- Lines 73–83: keep `regions[num]` whenever `num != 0 and area >
area_threshold`, collecting `convex_image`s, `bbox`es and the kept indices in
enumeration order. -/
def find_promising_objects {μ β : Type} (regions : List (RegionProp μ β))
    (area_threshold : Nat) : List μ × List β × List Nat :=
  let sel := regions.enum.filter
    (fun nx => nx.1 != 0 && decide (area_threshold < nx.2.area))
  (sel.map (fun nx => nx.2.convex_image), sel.map (fun nx => nx.2.bbox),
    sel.map (fun nx => nx.1))

/-- Two equally large (area 2000) connected components. -/
def demo_regions : List (RegionProp Unit Unit) :=
  [⟨2000, (), ()⟩, ⟨2000, (), ()⟩]

/-- C4 counterexample: with two non-background components both of area 2000
and threshold 1000, the candidate list keeps only index 1 — the first
non-background component (`regions[0]`, label 1) is dropped by the `num != 0`
guard even though its volume exceeds the threshold. -/
theorem first_component_dropped :
    (find_promising_objects demo_regions 1000).2.2 = [1] ∧
      1000 < (demo_regions.headD ⟨0, (), ()⟩).area ∧
      0 ∉ (find_promising_objects demo_regions 1000).2.2 := by
  refine ⟨rfl, by decide, by decide⟩

/-- C4 amended: an index enters the candidate list exactly when it is non-zero
and its component's voxel count exceeds the threshold — i.e. the filter
excludes, besides the small components, the first entry of the regionprops
list (the component with label 1), which is not the background. -/
theorem promising_indices_characterization {μ β : Type}
    (regions : List (RegionProp μ β)) (thr i : Nat) :
    i ∈ (find_promising_objects regions thr).2.2 ↔
      i ≠ 0 ∧ ∃ h : i < regions.length, thr < (regions.get ⟨i, h⟩).area := by
  simp only [find_promising_objects, List.mem_map, List.mem_filter]
  constructor
  · rintro ⟨⟨n, x⟩, ⟨hmem, hcond⟩, rfl⟩
    rw [List.mk_mem_enum_iff_getElem?] at hmem
    simp only [Bool.and_eq_true, bne_iff_ne, ne_eq, decide_eq_true_eq] at hcond
    obtain ⟨hn, hx⟩ := hcond
    rw [List.getElem?_eq_some] at hmem
    obtain ⟨h, hg⟩ := hmem
    refine ⟨hn, h, ?_⟩
    show thr < (regions.get ⟨n, h⟩).area
    rw [List.get_eq_getElem, hg]
    exact hx
  · rintro ⟨hn, h, hx⟩
    refine ⟨(i, regions.get ⟨i, h⟩), ⟨?_, ?_⟩, rfl⟩
    · rw [List.mk_mem_enum_iff_getElem?, List.getElem?_eq_some]
      exact ⟨h, by rw [List.get_eq_getElem]⟩
    · simp only [Bool.and_eq_true, bne_iff_ne, ne_eq, decide_eq_true_eq]
      exact ⟨hn, hx⟩

end AIF

namespace AIF

/-! ### 4.3 Temporal Peak Aligner — `find_most_peak_values`, lines 47–70 -/

/-- Bin index of the integer sample `x` in `np.histogram`'s auto-ranged
uniform binning over `[lo, hi]` with `bins` bins (exact-rational model of the
float computation): `⌊bins·(x−lo)/(hi−lo)⌋`, the last bin being closed; when
all samples coincide numpy widens the range to `(lo−0.5, lo+0.5)`, putting
the sample in bin `⌊bins/2⌋`. -/
def binIndex (lo hi bins x : Nat) : Nat :=
  if hi = lo then bins / 2
  else min ((bins * (x - lo)) / (hi - lo)) (bins - 1)

/-- `np.histogram(data, bins)` counts with auto range `(data.min, data.max)`
(line 60); on empty data numpy uses range `(0, 1)` and all counts are zero. -/
def npHistogramNat (data : List Nat) (bins : Nat) : List Nat :=
  match data with
  | [] => List.replicate bins 0
  | x :: xs =>
    (List.range bins).map (fun j =>
      (x :: xs).countP (fun y => binIndex (xs.foldl min x) (xs.foldl max x) bins y == j))

/-- Line 49: the per-voxel peak index `np.argmax(dce[:timesteps, ·], axis=0)`
(the slice clips at the series length `T`). -/
def fmp_peak (T : Nat) (val : Nat → Nat → ℚ) (timesteps v : Nat) : Nat :=
  npArgmax ((List.range (min timesteps T)).map (fun t => val t v))

/-- Lines 51–56: `first_part` as a voxel predicate — inside the mask and with
`0 < peak` and `peak < one_part` where `one_part = timesteps` (line 52). -/
def fmp_first_part (T : Nat) (val : Nat → Nat → ℚ) (mask : Nat → Bool)
    (timesteps v : Nat) : Bool :=
  mask v && (decide (0 < fmp_peak T val timesteps v) &&
    decide (fmp_peak T val timesteps v < timesteps))

/-- Lines 58–60: the histogram samples — the peak indices of the voxels that
pass the `first_part` filter, in voxel order (boolean-mask indexing).  Voxels
are flattened indices `0..V-1`; `val t v` is the concentration volume. -/
def fmp_data (T V : Nat) (val : Nat → Nat → ℚ) (mask : Nat → Bool)
    (timesteps : Nat) : List Nat :=
  ((List.range V).filter (fmp_first_part T val mask timesteps)).map
    (fmp_peak T val timesteps)

/-- Lines 59–61: `max_timestep`, the argmax of the peak-time histogram (a bin
index of the auto-ranged histogram). -/
def fmp_max_timestep (T V : Nat) (val : Nat → Nat → ℚ) (mask : Nat → Bool)
    (timesteps : Nat) : Nat :=
  npArgmax (npHistogramNat (fmp_data T V val mask timesteps) timesteps)

/-- Lines 63–70: reject a boundary `max_timestep` (`= 0` or `≥ timesteps − 1`),
otherwise return it with the mask-restricted value map `dce[max_timestep]`. -/
def find_most_peak_values (T V : Nat) (val : Nat → Nat → ℚ) (mask : Nat → Bool)
    (timesteps : Nat) : Option (Nat × (Nat → ℚ)) :=
  if fmp_max_timestep T V val mask timesteps = 0 ∨
      timesteps - 1 ≤ fmp_max_timestep T V val mask timesteps then none
  else some (fmp_max_timestep T V val mask timesteps,
    fun v => if mask v then val (fmp_max_timestep T V val mask timesteps) v else 0)

/-- Lines 225–227 of `find_deterministic_aif`: window 20, retried once with
window 30 when the first attempt returns `None`. -/
def find_timestep_stage (T V : Nat) (val : Nat → Nat → ℚ) (mask : Nat → Bool) :
    Option (Nat × (Nat → ℚ)) :=
  match find_most_peak_values T V val mask 20 with
  | some r => some r
  | none => find_most_peak_values T V val mask 30

/-- Line 230 of `find_deterministic_aif`: connected-component labeling is
applied to `binary_opening` itself; the step-3 result (`max_timestep`,
`retain_voxels`) is never consulted afterwards, whether `None` or not, and no
exception is raised. -/
def mask_for_region_extraction {γ δ : Type} (binary_opening : γ)
    (_alignment : Option δ) : γ :=
  binary_opening

/-! #### Argmax bounds -/

lemma argmaxFrom_lt {α : Type} [LinearOrder α] (xs : List α) :
    ∀ (i bi : Nat) (bv : α) (n : Nat), bi < n → i + xs.length ≤ n →
      argmaxFrom i bi bv xs < n := by
  induction xs with
  | nil =>
      intro i bi bv n hbi _
      simpa [argmaxFrom] using hbi
  | cons x xs ih =>
      intro i bi bv n hbi hlen
      simp only [List.length_cons] at hlen
      simp only [argmaxFrom]
      split
      · exact ih (i + 1) i x n (by omega) (by omega)
      · exact ih (i + 1) bi bv n hbi (by omega)

lemma npArgmax_lt_length {α : Type} [LinearOrder α] (l : List α) (h : l ≠ []) :
    npArgmax l < l.length := by
  cases l with
  | nil => exact absurd rfl h
  | cons x xs =>
      simp only [npArgmax, List.length_cons]
      exact argmaxFrom_lt xs 1 0 x (xs.length + 1) (by omega) (by omega)

/-! #### Theorems for the Temporal Peak Aligner -/

/-- The all-true voxel mask used in the concrete peak-aligner runs. -/
def demo_mask : Nat → Bool := fun _ => true

/-- C2 failing input evaluated: on a uniform (contrast-free) volume every
voxel peaks at index 0, both the window-20 and the window-30 attempt return
`None`, and the orchestrator neither raises nor branches — region extraction
proceeds on the binary-opening mask regardless (line 230). -/
theorem alignment_failure_not_raised :
    find_most_peak_values 2 1 (fun _ _ => (1 : ℚ)) demo_mask 20 = none ∧
      find_most_peak_values 2 1 (fun _ _ => (1 : ℚ)) demo_mask 30 = none ∧
      find_timestep_stage 2 1 (fun _ _ => (1 : ℚ)) demo_mask = none ∧
      mask_for_region_extraction true
        (find_timestep_stage 2 1 (fun _ _ => (1 : ℚ)) demo_mask) = true := by
  exact ⟨rfl, rfl, rfl, rfl⟩

/-- Voxel curves for the peak-aligner counterexample: with window 5, voxel 0
peaks at `t = 1`, voxels 1 and 2 at `t = 2`, voxel 3 at `t = 4` (the last
index of the window). -/
def c3val : Nat → Nat → ℚ := fun t v =>
  match v, t with
  | 0, 1 => 9
  | 0, 2 => 1
  | 1, 1 => 1
  | 1, 2 => 9
  | 2, 1 => 1
  | 2, 2 => 9
  | 3, 4 => 9
  | _, _ => 0

/-- C3 counterexample: voxel 3 peaks at the last window index `4 = 5 − 1` yet
is retained by the pre-histogram filter (the `peak < timesteps` bound is
vacuous), and the run succeeds with dominant timestep 1 while voxel 1 — whose
peak is 2, not 1 — still carries the non-zero value `dce[1]` in the returned
map. -/
theorem peak_aligner_boundary_and_map_cex :
    fmp_first_part 5 c3val demo_mask 5 3 = true ∧
      fmp_peak 5 c3val 5 3 = 5 - 1 ∧
      (find_most_peak_values 5 4 c3val demo_mask 5).map Prod.fst = some 1 ∧
      fmp_peak 5 c3val 5 1 = 2 ∧
      (find_most_peak_values 5 4 c3val demo_mask 5).map (fun r => r.2 1) = some 1 := by
  exact ⟨by decide, by decide, rfl, by decide, rfl⟩

/-- C3 amended: for a positive window length the pre-histogram filter discards
exactly the masked voxels whose peak index is 0 (the upper-boundary test
`peak < timesteps` always holds, so last-index peaks are retained), and on
success the returned map gives every masked voxel the volume's value at the
dominant timestep and every other voxel 0, regardless of the voxel's own peak
index. -/
theorem peak_aligner_characterization (T V : Nat) (val : Nat → Nat → ℚ)
    (mask : Nat → Bool) (timesteps : Nat) :
    (0 < timesteps → ∀ v, fmp_first_part T val mask timesteps v =
        (mask v && decide (0 < fmp_peak T val timesteps v))) ∧
      (∀ mt m, find_most_peak_values T V val mask timesteps = some (mt, m) →
        mt ≠ 0 ∧ mt < timesteps - 1 ∧
          ∀ v, m v = if mask v then val mt v else 0) := by
  constructor
  · intro hts v
    by_cases hmin : 0 < min timesteps T
    · have hlt : fmp_peak T val timesteps v < timesteps := by
        have hne : (List.range (min timesteps T)).map (fun t => val t v) ≠ [] := by
          simp only [ne_eq, List.map_eq_nil_iff, List.range_eq_nil]
          omega
        have h := npArgmax_lt_length _ hne
        rw [List.length_map, List.length_range] at h
        unfold fmp_peak
        omega
      have hdec : decide (fmp_peak T val timesteps v < timesteps) = true :=
        decide_eq_true hlt
      simp [fmp_first_part, hdec]
    · have hmin0 : min timesteps T = 0 := by omega
      have hpk : fmp_peak T val timesteps v = 0 := by
        unfold fmp_peak
        rw [hmin0]
        rfl
      simp [fmp_first_part, hpk]
  · intro mt m h
    unfold find_most_peak_values at h
    split at h
    · exact absurd h (by simp)
    · next hcond =>
        push_neg at hcond
        rw [Option.some.injEq, Prod.mk.injEq] at h
        obtain ⟨hmt, hm⟩ := h
        subst hmt
        refine ⟨hcond.1, by omega, ?_⟩
        intro v
        rw [← hm]

/-- The value map returned by the successful concrete peak-aligner run. -/
def c3retain : Nat → ℚ := fun v => if demo_mask v then c3val 1 v else 0

/-- C3 amended witness: the characterization applied to the concrete
four-voxel run (dominant timestep 1), evaluated at voxel 2. -/
theorem peak_aligner_characterization_witness :
    fmp_first_part 5 c3val demo_mask 5 2 =
        (demo_mask 2 && decide (0 < fmp_peak 5 c3val 5 2)) ∧
      1 ≠ 0 ∧ 1 < 5 - 1 ∧
      c3retain 2 = if demo_mask 2 then c3val 1 2 else 0 := by
  have h := peak_aligner_characterization 5 4 c3val demo_mask 5
  have h2 := h.2 1 c3retain rfl
  exact ⟨h.1 (by omega) 2, h2.1, h2.2.1, h2.2.2 2⟩

end AIF

namespace AIF

/-! ### 4.2 Candidate Selector step 1 — `select_brightest_voxels`, lines 32–38 -/

/-- Linear interpolation into a sorted list at fractional position `pos`
(numpy's default percentile interpolation): with `i = ⌊pos⌋`, the value
`s[i] + (pos − i)·(s[i+1] − s[i])`, the upper sample defaulting to the lower
one at the right end. -/
def interpSorted (s : List ℚ) (pos : ℚ) : ℚ :=
  s.getD (⌊pos⌋).toNat 0 + (pos - ((⌊pos⌋).toNat : ℚ)) *
    (s.getD ((⌊pos⌋).toNat + 1) (s.getD (⌊pos⌋).toNat 0) - s.getD (⌊pos⌋).toNat 0)

/-- `np.percentile(data, q)` (line 36): sort, then linearly interpolate at
position `q·(n−1)/100`; `0` on the empty list, where numpy raises. -/
def npPercentile (data : List ℚ) (q : ℚ) : ℚ :=
  match data with
  | [] => 0
  | x :: xs => interpSorted (List.insertionSort (· ≤ ·) (x :: xs))
      (q * (((x :: xs).length : ℚ) - 1) / 100)

/-- Line 35: `np.sum(dce[:timesteps], axis=0) / float(timesteps)`, the
per-voxel temporal mean over the first `timesteps` frames. -/
def dce_time_mean (dce : List (List ℚ)) (timesteps : Nat) : List ℚ :=
  (List.range ((dce.getD 0 []).length)).map
    (fun v => ((dce.take timesteps).map (fun frame => frame.getD v 0)).sum /
      (timesteps : ℚ))

/-- Lines 36–37: the boolean voxel map `dce_sum > np.percentile(dce_sum,
100 − percentile)`. -/
def brightest_mask (dce : List (List ℚ)) (timesteps : Nat) (percentile : ℚ) :
    List Bool :=
  (dce_time_mean dce timesteps).map
    (fun x => decide (npPercentile (dce_time_mean dce timesteps)
      (100 - percentile) < x))

/-- Lines 32–38: `select_brightest_voxels`, the two `assert`s of lines 33–34
modelled as the failure condition (`AssertionError` ⇒ `none`). -/
def select_brightest_voxels (dce : List (List ℚ)) (timesteps : Nat)
    (percentile : ℚ) : Option (List Bool) :=
  if 0 < timesteps ∧ timesteps < dce.length ∧ 0 < percentile ∧ percentile < 100 then
    some (brightest_mask dce timesteps percentile)
  else none

/-! #### Percentile monotonicity -/

lemma getD_eq_getElem_of_lt (l : List ℚ) (d : ℚ) {i : Nat} (h : i < l.length) :
    l.getD i d = l[i] := by
  rw [List.getD_eq_getElem?_getD, List.getElem?_eq_getElem h, Option.getD_some]

lemma getD_eq_default_of_le (l : List ℚ) (d : ℚ) {i : Nat} (h : l.length ≤ i) :
    l.getD i d = d := by
  rw [List.getD_eq_getElem?_getD, List.getElem?_eq_none h, Option.getD_none]

lemma sorted_getD_mono (s : List ℚ) (hs : List.Sorted (· ≤ ·) s) {i j : Nat}
    (hij : i ≤ j) (hj : j < s.length) (d1 d2 : ℚ) : s.getD i d1 ≤ s.getD j d2 := by
  have hi : i < s.length := lt_of_le_of_lt hij hj
  rw [getD_eq_getElem_of_lt s d1 hi, getD_eq_getElem_of_lt s d2 hj]
  rcases Nat.eq_or_lt_of_le hij with rfl | hlt
  · exact le_refl _
  · exact List.pairwise_iff_getElem.mp hs i j hi hj hlt

lemma getD_succ_ge (s : List ℚ) (hs : List.Sorted (· ≤ ·) s) (i : Nat) :
    s.getD i 0 ≤ s.getD (i + 1) (s.getD i 0) := by
  by_cases h : i + 1 < s.length
  · exact sorted_getD_mono s hs (Nat.le_succ i) h 0 _
  · rw [getD_eq_default_of_le s _ (le_of_not_lt h)]

lemma floor_toNat_le {pos : ℚ} (h : 0 ≤ pos) : ((⌊pos⌋).toNat : ℚ) ≤ pos := by
  have h2 : ((⌊pos⌋).toNat : ℤ) = ⌊pos⌋ := Int.toNat_of_nonneg (Int.floor_nonneg.mpr h)
  have h3 : (((⌊pos⌋).toNat : ℤ) : ℚ) ≤ pos := by
    rw [h2]
    exact Int.floor_le pos
  exact_mod_cast h3

lemma lt_floor_toNat_add_one {pos : ℚ} (h : 0 ≤ pos) :
    pos < ((⌊pos⌋).toNat : ℚ) + 1 := by
  have h2 : ((⌊pos⌋).toNat : ℤ) = ⌊pos⌋ := Int.toNat_of_nonneg (Int.floor_nonneg.mpr h)
  have h3 : pos < (((⌊pos⌋).toNat : ℤ) : ℚ) + 1 := by
    rw [h2]
    exact Int.lt_floor_add_one pos
  exact_mod_cast h3

lemma interpSorted_ge_lo (s : List ℚ) (hs : List.Sorted (· ≤ ·) s) (pos : ℚ)
    (h0 : 0 ≤ pos) : s.getD (⌊pos⌋).toNat 0 ≤ interpSorted s pos := by
  unfold interpSorted
  have hfrac : 0 ≤ pos - ((⌊pos⌋).toNat : ℚ) := by linarith [floor_toNat_le h0]
  have hd := getD_succ_ge s hs (⌊pos⌋).toNat
  nlinarith [mul_nonneg hfrac (sub_nonneg.mpr hd)]

lemma interpSorted_le_hi (s : List ℚ) (hs : List.Sorted (· ≤ ·) s) (pos : ℚ)
    (h0 : 0 ≤ pos) :
    interpSorted s pos ≤ s.getD ((⌊pos⌋).toNat + 1) (s.getD (⌊pos⌋).toNat 0) := by
  unfold interpSorted
  have hfr := lt_floor_toNat_add_one h0
  have hd := getD_succ_ge s hs (⌊pos⌋).toNat
  nlinarith [mul_nonneg (by linarith : (0:ℚ) ≤ 1 - (pos - ((⌊pos⌋).toNat : ℚ)))
    (sub_nonneg.mpr hd)]

lemma interpSorted_mono (s : List ℚ) (hs : List.Sorted (· ≤ ·) s) {p1 p2 : ℚ}
    (h0 : 0 ≤ p1) (h12 : p1 ≤ p2) (h2 : p2 ≤ (s.length : ℚ) - 1) :
    interpSorted s p1 ≤ interpSorted s p2 := by
  have h02 : (0 : ℚ) ≤ p2 := le_trans h0 h12
  have hi12 : (⌊p1⌋).toNat ≤ (⌊p2⌋).toNat :=
    Int.toNat_le_toNat (Int.floor_le_floor h12)
  have hi2lt : (⌊p2⌋).toNat < s.length := by
    have ha : ((⌊p2⌋).toNat : ℚ) ≤ (s.length : ℚ) - 1 := le_trans (floor_toNat_le h02) h2
    have hb : ((⌊p2⌋).toNat : ℚ) + 1 ≤ (s.length : ℚ) := by linarith
    have hc : (⌊p2⌋).toNat + 1 ≤ s.length := by exact_mod_cast hb
    omega
  rcases Nat.eq_or_lt_of_le hi12 with heq | hlt
  · unfold interpSorted
    rw [← heq]
    have hd := getD_succ_ge s hs (⌊p1⌋).toNat
    nlinarith [mul_nonneg (sub_nonneg.mpr h12) (sub_nonneg.mpr hd)]
  · calc interpSorted s p1
        ≤ s.getD ((⌊p1⌋).toNat + 1) (s.getD (⌊p1⌋).toNat 0) :=
          interpSorted_le_hi s hs p1 h0
      _ ≤ s.getD (⌊p2⌋).toNat 0 := sorted_getD_mono s hs hlt hi2lt _ 0
      _ ≤ interpSorted s p2 := interpSorted_ge_lo s hs p2 h02

lemma npPercentile_mono (data : List ℚ) {q1 q2 : ℚ}
    (h0 : 0 ≤ q1) (h12 : q1 ≤ q2) (h100 : q2 ≤ 100) :
    npPercentile data q1 ≤ npPercentile data q2 := by
  cases data with
  | nil => simp [npPercentile]
  | cons x xs =>
    simp only [npPercentile]
    have hone : (1 : ℚ) ≤ (((x :: xs).length : Nat) : ℚ) := by
      have : 1 ≤ (x :: xs).length := by simp
      exact_mod_cast this
    have hlen : (0 : ℚ) ≤ (((x :: xs).length : Nat) : ℚ) - 1 := by linarith
    have hsorted := List.sorted_insertionSort (α := ℚ) (· ≤ ·) (x :: xs)
    apply interpSorted_mono _ hsorted
    · exact div_nonneg (mul_nonneg h0 hlen) (by norm_num)
    · gcongr
    · rw [List.length_insertionSort]
      calc q2 * (((x :: xs).length : ℚ) - 1) / 100
          ≤ 100 * (((x :: xs).length : ℚ) - 1) / 100 := by gcongr
        _ = ((x :: xs).length : ℚ) - 1 := by ring

lemma count_true_map_lt_mono (l : List ℚ) {t1 t2 : ℚ} (h : t2 ≤ t1) :
    (l.map (fun x => decide (t1 < x))).count true ≤
      (l.map (fun x => decide (t2 < x))).count true := by
  induction l with
  | nil => simp
  | cons x xs ih =>
      by_cases h1 : t1 < x
      · have h2 : t2 < x := lt_of_le_of_lt h h1
        simp [List.count_cons, h1, h2]
        omega
      · by_cases h2 : t2 < x
        · simp [List.count_cons, h1, h2]
          omega
        · simp [List.count_cons, h1, h2]
          omega

/-- C9: for a fixed input volume and window length, with both percentiles in
the valid open range, raising the brightest-voxel percentile never decreases
the number of selected voxels: both calls pass the asserts and the voxel
count selected with `p1 ≤ p2` is at most the count selected with `p2`. -/
theorem brightest_voxels_monotone (dce : List (List ℚ)) (timesteps : Nat)
    (p1 p2 : ℚ) (ht0 : 0 < timesteps) (htT : timesteps < dce.length)
    (hp0 : 0 < p1) (hp12 : p1 ≤ p2) (hp100 : p2 < 100) :
    select_brightest_voxels dce timesteps p1 =
        some (brightest_mask dce timesteps p1) ∧
      select_brightest_voxels dce timesteps p2 =
        some (brightest_mask dce timesteps p2) ∧
      (brightest_mask dce timesteps p1).count true ≤
        (brightest_mask dce timesteps p2).count true := by
  refine ⟨?_, ?_, ?_⟩
  · have hcond : 0 < timesteps ∧ timesteps < dce.length ∧ 0 < p1 ∧ p1 < 100 :=
      ⟨ht0, htT, hp0, lt_of_le_of_lt hp12 hp100⟩
    simp [select_brightest_voxels, hcond]
  · have hcond : 0 < timesteps ∧ timesteps < dce.length ∧ 0 < p2 ∧ p2 < 100 :=
      ⟨ht0, htT, lt_of_lt_of_le hp0 hp12, hp100⟩
    simp [select_brightest_voxels, hcond]
  · unfold brightest_mask
    apply count_true_map_lt_mono
    apply npPercentile_mono
    · linarith
    · linarith
    · linarith

/-- C9 witness: the monotonicity theorem at a concrete 2-frame, 3-voxel
volume with window 1 and percentiles 10 ≤ 50. -/
theorem brightest_voxels_monotone_witness :
    select_brightest_voxels [[1, 2, 3], [3, 2, 1]] 1 10 =
        some (brightest_mask [[1, 2, 3], [3, 2, 1]] 1 10) ∧
      select_brightest_voxels [[1, 2, 3], [3, 2, 1]] 1 50 =
        some (brightest_mask [[1, 2, 3], [3, 2, 1]] 1 50) ∧
      (brightest_mask [[1, 2, 3], [3, 2, 1]] 1 10).count true ≤
        (brightest_mask [[1, 2, 3], [3, 2, 1]] 1 50).count true :=
  brightest_voxels_monotone [[1, 2, 3], [3, 2, 1]] 1 10 50 (by norm_num)
    (by norm_num) (by norm_num) (by norm_num) (by norm_num)

end AIF
